import Mathlib

/-!
Verification of the cashu-mint-status-board core: the ranking engine
(`MintSorter` in the dashboard script) and the probe cache
(`LatencyMonitor` in `static/latency.js`).

The ranking engine is embedded as pure functions over a normalized
endpoint record (rational weights, natural-number counters, real-valued
scores since the capacity criterion uses `Math.log10`).  The probe cache
is embedded as a state-transition system over the four maps the script
keeps (`latencyCache` / `currencyCache` and the two pending-request
registries), with reachability indexed by the event trace.
-/

namespace MintBoard

/-- Weight configuration (the `state.weights` object).  The status
criterion is a boolean; all other criteria carry numeric weights. -/
structure Weights where
  status : Bool
  currency : ℚ
  capacity : ℚ
  channels : ℚ
  latency : ℚ
  mints : ℚ
  melts : ℚ
  errors : ℚ
deriving DecidableEq

/-- Default weights (the `DEFAULTS` constant of the sorter). -/
def DEFAULTS : Weights :=
  { status := true, currency := 50, capacity := 5000, channels := 20
    latency := 5, mints := 50, melts := 50, errors := 200 }

/-- Normalized endpoint record, the shape produced by `getRowData` when
every dataset attribute parses (the §3 invariant of the spec): counters
are naturals, `latency` holds the sentinel 99999 when unknown. -/
structure EndpointRecord where
  url : String
  ln_name : String
  sortName : String
  isUp : ℕ
  uptime : ℚ
  capacity : ℕ
  channels : ℕ
  currencies : ℕ
  latency : ℕ
  mints : ℕ
  melts : ℕ
  errors : ℕ
deriving DecidableEq

/-- Status term of `calculateScore`: a 1e9 bias for live endpoints when
the status criterion is enabled (`data.isUp ? 1_000_000_000 : 0`;
`isUp` comes from `parseInt`, so truthiness is being nonzero). -/
def statusTerm (w : Weights) (d : EndpointRecord) : ℚ :=
  if w.status then (if d.isUp ≠ 0 then 1000000000 else 0) else 0

/-- The raw activity score `data.mints * weights.mints + data.melts * weights.melts`. -/
def activityScoreRaw (w : Weights) (d : EndpointRecord) : ℚ :=
  (d.mints : ℚ) * w.mints + (d.melts : ℚ) * w.melts

/-- Total operation count `data.mints + data.melts + data.errors`. -/
def totalOps (d : EndpointRecord) : ℕ :=
  d.mints + d.melts + d.errors

/-- Error rate `totalOps > 0 ? errors / totalOps : 0`. -/
def errorRate (d : EndpointRecord) : ℚ :=
  if 0 < totalOps d then (d.errors : ℚ) / (totalOps d : ℚ) else 0

/-- Activity term of `calculateScore`: the raw activity score modulated
by the clamped error-rate penalty, contributed only when the raw
activity score is strictly positive. -/
def activityTerm (w : Weights) (d : EndpointRecord) : ℚ :=
  if 0 < activityScoreRaw w d then
    activityScoreRaw w d * max 0 (1 - errorRate d * (w.errors / 100))
  else 0

/-- Capacity term of `calculateScore`: `Math.log10(capacity) * weights.capacity`
when `capacity > 0`, else nothing. -/
noncomputable def capacityTerm (w : Weights) (d : EndpointRecord) : ℝ :=
  if 0 < d.capacity then Real.logb 10 (d.capacity : ℝ) * (w.capacity : ℝ) else 0

/-- Channels term of `calculateScore`: linear, contributed when `channels > 0`. -/
def channelsTerm (w : Weights) (d : EndpointRecord) : ℚ :=
  if 0 < d.channels then (d.channels : ℚ) * w.channels else 0

/-- Latency penalty of `calculateScore`: a fixed `1000 * weights.latency`
when the latency is the unknown sentinel (`data.latency >= 99999`), else
the linear `data.latency * weights.latency`.  This amount is subtracted. -/
def latencyTerm (w : Weights) (d : EndpointRecord) : ℚ :=
  if 99999 ≤ d.latency then 1000 * w.latency else (d.latency : ℚ) * w.latency

/-- Currencies term of `calculateScore`: linear. -/
def currencyTerm (w : Weights) (d : EndpointRecord) : ℚ :=
  (d.currencies : ℚ) * w.currency

/-- The weighted composite score (`calculateScore`): the sequential
accumulation of the six criteria, with the latency penalty subtracted. -/
noncomputable def calculateScore (w : Weights) (d : EndpointRecord) : ℝ :=
  (statusTerm w d : ℝ) + (activityTerm w d : ℝ) + capacityTerm w d
    + (channelsTerm w d : ℝ) - (latencyTerm w d : ℝ) + (currencyTerm w d : ℝ)

lemma activityTerm_nonneg (w : Weights) (d : EndpointRecord) :
    0 ≤ activityTerm w d := by
  unfold activityTerm
  split
  · exact mul_nonneg (le_of_lt (by assumption)) (le_max_left 0 _)
  · exact le_refl 0

lemma capacityTerm_nonneg (w : Weights) (d : EndpointRecord)
    (hcap : 0 ≤ w.capacity) : 0 ≤ capacityTerm w d := by
  unfold capacityTerm
  split
  · apply mul_nonneg
    · apply Real.logb_nonneg (by norm_num)
      have h1 : (1 : ℕ) ≤ d.capacity := by omega
      exact_mod_cast h1
    · exact_mod_cast hcap
  · exact le_refl 0

lemma channelsTerm_nonneg (w : Weights) (d : EndpointRecord)
    (hchan : 0 ≤ w.channels) : 0 ≤ channelsTerm w d := by
  unfold channelsTerm
  split
  · exact mul_nonneg (by positivity) hchan
  · exact le_refl 0

lemma currencyTerm_nonneg (w : Weights) (d : EndpointRecord)
    (hcur : 0 ≤ w.currency) : 0 ≤ currencyTerm w d :=
  mul_nonneg (by positivity) hcur

lemma latencyTerm_nonneg (w : Weights) (d : EndpointRecord)
    (hlat : 0 ≤ w.latency) : 0 ≤ latencyTerm w d := by
  unfold latencyTerm
  split
  · positivity
  · exact mul_nonneg (by positivity) hlat

/-- C1: in weighted mode with the status criterion enabled and all
weights non-negative, a live record A outranks a dead record B whenever
the weighted field magnitudes stay below the 1e9 status bias: the
latency penalty of A plus every positive term of B sums below 1e9. -/
theorem status_bias_dominates (w : Weights) (A B : EndpointRecord)
    (hst : w.status = true)
    (hcur : 0 ≤ w.currency) (hcap : 0 ≤ w.capacity) (hchan : 0 ≤ w.channels)
    (hlat : 0 ≤ w.latency) (hmints : 0 ≤ w.mints) (hmelts : 0 ≤ w.melts)
    (herr : 0 ≤ w.errors)
    (hA : A.isUp ≠ 0) (hB : B.isUp = 0)
    (hbound : (latencyTerm w A : ℝ) + (activityTerm w B : ℝ) + capacityTerm w B
        + (channelsTerm w B : ℝ) + (currencyTerm w B : ℝ) < 1000000000) :
    calculateScore w B < calculateScore w A := by
  have hstA : statusTerm w A = 1000000000 := by
    unfold statusTerm; rw [hst]; simp [hA]
  have hstB : statusTerm w B = 0 := by
    unfold statusTerm; rw [hst]; simp [hB]
  have h1 : 0 ≤ (activityTerm w A : ℝ) := by exact_mod_cast activityTerm_nonneg w A
  have h2 : 0 ≤ capacityTerm w A := capacityTerm_nonneg w A hcap
  have h3 : 0 ≤ (channelsTerm w A : ℝ) := by exact_mod_cast channelsTerm_nonneg w A hchan
  have h4 : 0 ≤ (currencyTerm w A : ℝ) := by exact_mod_cast currencyTerm_nonneg w A hcur
  have h5 : 0 ≤ (latencyTerm w B : ℝ) := by exact_mod_cast latencyTerm_nonneg w B hlat
  unfold calculateScore
  rw [hstA, hstB]
  push_cast
  linarith

/-- Record with every counter zero: the baseline for concrete witnesses. -/
def zeroRecord : EndpointRecord :=
  { url := "", ln_name := "", sortName := "", isUp := 0, uptime := 0
    capacity := 0, channels := 0, currencies := 0, latency := 0
    mints := 0, melts := 0, errors := 0 }

/-- Witness for C1 at the default weights: a live record with no other
data outranks a dead record with no other data. -/
theorem status_bias_dominates_witness :
    DEFAULTS.status = true ∧
    calculateScore DEFAULTS zeroRecord < calculateScore DEFAULTS { zeroRecord with isUp := 1 } := by
  refine ⟨rfl, status_bias_dominates DEFAULTS { zeroRecord with isUp := 1 } zeroRecord rfl
    (by norm_num [DEFAULTS]) (by norm_num [DEFAULTS]) (by norm_num [DEFAULTS])
    (by norm_num [DEFAULTS]) (by norm_num [DEFAULTS]) (by norm_num [DEFAULTS])
    (by norm_num [DEFAULTS]) (by simp [zeroRecord]) rfl ?_⟩
  simp [latencyTerm, activityTerm, activityScoreRaw, capacityTerm, channelsTerm,
    currencyTerm, zeroRecord, DEFAULTS]

lemma errorRate_nonneg (d : EndpointRecord) : 0 ≤ errorRate d := by
  unfold errorRate
  split
  · positivity
  · exact le_refl 0

lemma errorRate_mono (d : EndpointRecord) (e' : ℕ) (he : d.errors ≤ e') :
    errorRate d ≤ errorRate { d with errors := e' } := by
  unfold errorRate totalOps
  simp only
  rcases Nat.eq_zero_or_pos (d.mints + d.melts + d.errors) with h0 | hpos
  · rw [if_neg (by omega)]
    split
    · positivity
    · exact le_refl 0
  · have hpos' : 0 < d.mints + d.melts + e' := by omega
    rw [if_pos hpos, if_pos hpos']
    rw [div_le_div_iff (by exact_mod_cast hpos) (by exact_mod_cast hpos')]
    push_cast
    nlinarith [mul_le_mul_of_nonneg_left (show (d.errors : ℚ) ≤ (e' : ℚ) by exact_mod_cast he)
      (show (0 : ℚ) ≤ (d.mints : ℚ) + (d.melts : ℚ) by positivity)]

/-- C3: for fixed mints and melts with a strictly positive raw activity
score, raising the error count never raises the contributed activity
term; the contributed term is always non-negative; and a record with
zero raw activity score contributes a score completely independent of
its error count. -/
theorem activity_modulation (w : Weights) (d d₂ : EndpointRecord) (e' e₂ : ℕ)
    (herrw : 0 ≤ w.errors)
    (hact : 0 < activityScoreRaw w d) (he : d.errors ≤ e')
    (hz : activityScoreRaw w d₂ = 0) :
    activityTerm w { d with errors := e' } ≤ activityTerm w d
    ∧ 0 ≤ activityTerm w d
    ∧ calculateScore w { d₂ with errors := e₂ } = calculateScore w d₂ := by
  refine ⟨?_, activityTerm_nonneg w d, ?_⟩
  · have hactsame : activityScoreRaw w { d with errors := e' } = activityScoreRaw w d := rfl
    unfold activityTerm
    rw [hactsame, if_pos hact, if_pos hact]
    apply mul_le_mul_of_nonneg_left _ (le_of_lt hact)
    apply max_le_max (le_refl 0)
    have := errorRate_mono d e' he
    have hk : 0 ≤ w.errors / 100 := by positivity
    nlinarith
  · have hactsame : activityScoreRaw w { d₂ with errors := e₂ } = activityScoreRaw w d₂ := rfl
    unfold calculateScore
    have ha : activityTerm w { d₂ with errors := e₂ } = activityTerm w d₂ := by
      unfold activityTerm
      rw [hactsame, hz]
      simp
    have hs : statusTerm w { d₂ with errors := e₂ } = statusTerm w d₂ := rfl
    have hc : capacityTerm w { d₂ with errors := e₂ } = capacityTerm w d₂ := rfl
    have hch : channelsTerm w { d₂ with errors := e₂ } = channelsTerm w d₂ := rfl
    have hl : latencyTerm w { d₂ with errors := e₂ } = latencyTerm w d₂ := rfl
    have hcu : currencyTerm w { d₂ with errors := e₂ } = currencyTerm w d₂ := rfl
    rw [ha, hs, hc, hch, hl, hcu]

/-- Witness for C3 at the default weights: an active record whose error
count rises from 0 to 3, and an inactive record whose error count is
irrelevant to its score. -/
theorem activity_modulation_witness :
    (0 : ℚ) ≤ DEFAULTS.errors
    ∧ 0 < activityScoreRaw DEFAULTS { zeroRecord with mints := 2 }
    ∧ activityScoreRaw DEFAULTS zeroRecord = 0
    ∧ activityTerm DEFAULTS { zeroRecord with mints := 2, errors := 3 }
        ≤ activityTerm DEFAULTS { zeroRecord with mints := 2 }
    ∧ calculateScore DEFAULTS { zeroRecord with errors := 7 } = calculateScore DEFAULTS zeroRecord := by
  have h1 : (0 : ℚ) ≤ DEFAULTS.errors := by norm_num [DEFAULTS]
  have h2 : 0 < activityScoreRaw DEFAULTS { zeroRecord with mints := 2 } := by
    norm_num [activityScoreRaw, DEFAULTS, zeroRecord]
  have h3 : activityScoreRaw DEFAULTS zeroRecord = 0 := by
    norm_num [activityScoreRaw, DEFAULTS, zeroRecord]
  have h4 := activity_modulation DEFAULTS { zeroRecord with mints := 2 } zeroRecord 3 7
    h1 h2 (by norm_num [zeroRecord]) h3
  exact ⟨h1, h2, h3, h4.1, h4.2.2⟩

lemma capacityTerm_mono (w : Weights) (d : EndpointRecord) (c' : ℕ)
    (hcap : 0 ≤ w.capacity) (hc : d.capacity ≤ c') :
    capacityTerm w d ≤ capacityTerm w { d with capacity := c' } := by
  unfold capacityTerm
  simp only
  rcases Nat.eq_zero_or_pos d.capacity with h0 | hpos
  · rw [if_neg (by omega)]
    split
    · apply mul_nonneg
      · apply Real.logb_nonneg (by norm_num)
        have h1 : (1 : ℕ) ≤ c' := by omega
        exact_mod_cast h1
      · exact_mod_cast hcap
    · exact le_refl 0
  · have hpos' : 0 < c' := by omega
    rw [if_pos hpos, if_pos hpos']
    apply mul_le_mul_of_nonneg_right _ (by exact_mod_cast hcap)
    apply Real.logb_le_logb_of_le (by norm_num)
    · exact_mod_cast hpos
    · exact_mod_cast hc

/-- C4 (amended): with non-negative weights, `calculateScore` is
monotonically non-decreasing in capacity, channels and currencies, and
monotonically non-increasing in latency on the range of known latencies
(below the 99999 sentinel); all latencies at or above the sentinel score
identically.  Over the full declared domain the latency claim fails, see
the counterexample. -/
theorem score_monotonicity (w : Weights) (d : EndpointRecord) (c' ch' cu' l l' : ℕ)
    (hcap : 0 ≤ w.capacity) (hchan : 0 ≤ w.channels)
    (hcur : 0 ≤ w.currency) (hlat : 0 ≤ w.latency) :
    (d.capacity ≤ c' → calculateScore w d ≤ calculateScore w { d with capacity := c' })
    ∧ (d.channels ≤ ch' → calculateScore w d ≤ calculateScore w { d with channels := ch' })
    ∧ (d.currencies ≤ cu' → calculateScore w d ≤ calculateScore w { d with currencies := cu' })
    ∧ (l ≤ l' → l' < 99999 →
        calculateScore w { d with latency := l' } ≤ calculateScore w { d with latency := l })
    ∧ (99999 ≤ l → 99999 ≤ l' →
        calculateScore w { d with latency := l' } = calculateScore w { d with latency := l }) := by
  refine ⟨?_, ?_, ?_, ?_, ?_⟩
  · intro hc
    unfold calculateScore
    have h := capacityTerm_mono w d c' hcap hc
    have hs : statusTerm w { d with capacity := c' } = statusTerm w d := rfl
    have ha : activityTerm w { d with capacity := c' } = activityTerm w d := rfl
    have hch : channelsTerm w { d with capacity := c' } = channelsTerm w d := rfl
    have hl : latencyTerm w { d with capacity := c' } = latencyTerm w d := rfl
    have hcu : currencyTerm w { d with capacity := c' } = currencyTerm w d := rfl
    rw [hs, ha, hch, hl, hcu]
    linarith
  · intro hc
    unfold calculateScore
    have h : channelsTerm w d ≤ channelsTerm w { d with channels := ch' } := by
      unfold channelsTerm
      simp only
      rcases Nat.eq_zero_or_pos d.channels with h0 | hpos
      · rw [if_neg (by omega)]
        split
        · exact mul_nonneg (by positivity) hchan
        · exact le_refl 0
      · rw [if_pos hpos, if_pos (by omega)]
        apply mul_le_mul_of_nonneg_right _ hchan
        exact_mod_cast hc
    have h' : (channelsTerm w d : ℝ) ≤ (channelsTerm w { d with channels := ch' } : ℝ) := by
      exact_mod_cast h
    have hs : statusTerm w { d with channels := ch' } = statusTerm w d := rfl
    have ha : activityTerm w { d with channels := ch' } = activityTerm w d := rfl
    have hcp : capacityTerm w { d with channels := ch' } = capacityTerm w d := rfl
    have hl : latencyTerm w { d with channels := ch' } = latencyTerm w d := rfl
    have hcu : currencyTerm w { d with channels := ch' } = currencyTerm w d := rfl
    rw [hs, ha, hcp, hl, hcu]
    linarith
  · intro hc
    unfold calculateScore
    have h : currencyTerm w d ≤ currencyTerm w { d with currencies := cu' } := by
      unfold currencyTerm
      apply mul_le_mul_of_nonneg_right _ hcur
      exact_mod_cast hc
    have h' : (currencyTerm w d : ℝ) ≤ (currencyTerm w { d with currencies := cu' } : ℝ) := by
      exact_mod_cast h
    have hs : statusTerm w { d with currencies := cu' } = statusTerm w d := rfl
    have ha : activityTerm w { d with currencies := cu' } = activityTerm w d := rfl
    have hcp : capacityTerm w { d with currencies := cu' } = capacityTerm w d := rfl
    have hl : latencyTerm w { d with currencies := cu' } = latencyTerm w d := rfl
    have hch : channelsTerm w { d with currencies := cu' } = channelsTerm w d := rfl
    rw [hs, ha, hcp, hl, hch]
    linarith
  · intro hll hl'
    unfold calculateScore
    have h : latencyTerm w { d with latency := l } ≤ latencyTerm w { d with latency := l' } := by
      unfold latencyTerm
      simp only
      rw [if_neg (by omega), if_neg (by omega)]
      apply mul_le_mul_of_nonneg_right _ hlat
      exact_mod_cast hll
    have h' : (latencyTerm w { d with latency := l } : ℝ)
        ≤ (latencyTerm w { d with latency := l' } : ℝ) := by exact_mod_cast h
    have hs : statusTerm w { d with latency := l' } = statusTerm w { d with latency := l } := rfl
    have ha : activityTerm w { d with latency := l' } = activityTerm w { d with latency := l } := rfl
    have hcp : capacityTerm w { d with latency := l' } = capacityTerm w { d with latency := l } := rfl
    have hch : channelsTerm w { d with latency := l' } = channelsTerm w { d with latency := l } := rfl
    have hcu : currencyTerm w { d with latency := l' } = currencyTerm w { d with latency := l } := rfl
    rw [hs, ha, hcp, hch, hcu]
    linarith
  · intro hl hl'
    unfold calculateScore
    have h : latencyTerm w { d with latency := l' } = latencyTerm w { d with latency := l } := by
      unfold latencyTerm
      simp only
      rw [if_pos (by omega), if_pos (by omega)]
    have hs : statusTerm w { d with latency := l' } = statusTerm w { d with latency := l } := rfl
    have ha : activityTerm w { d with latency := l' } = activityTerm w { d with latency := l } := rfl
    have hcp : capacityTerm w { d with latency := l' } = capacityTerm w { d with latency := l } := rfl
    have hch : channelsTerm w { d with latency := l' } = channelsTerm w { d with latency := l } := rfl
    have hcu : currencyTerm w { d with latency := l' } = currencyTerm w { d with latency := l } := rfl
    rw [hs, ha, hcp, hch, hcu, h]

/-- Witness for C4 at the default weights: growing capacity 5 → 9 does
not lower the score, and growing a known latency 100 → 200 does not
raise it. -/
theorem score_monotonicity_witness :
    (0 : ℚ) ≤ DEFAULTS.capacity
    ∧ calculateScore DEFAULTS { zeroRecord with capacity := 5 }
        ≤ calculateScore DEFAULTS { zeroRecord with capacity := 9 }
    ∧ calculateScore DEFAULTS { zeroRecord with latency := 200 }
        ≤ calculateScore DEFAULTS { zeroRecord with latency := 100 } := by
  have hw : (0 : ℚ) ≤ DEFAULTS.capacity := by norm_num [DEFAULTS]
  have h1 := (score_monotonicity DEFAULTS { zeroRecord with capacity := 5 } 9 0 0 100 200
    hw (by norm_num [DEFAULTS]) (by norm_num [DEFAULTS]) (by norm_num [DEFAULTS])).1
    (by norm_num [zeroRecord])
  have h2 := (score_monotonicity DEFAULTS zeroRecord 0 0 0 100 200
    hw (by norm_num [DEFAULTS]) (by norm_num [DEFAULTS]) (by norm_num [DEFAULTS])).2.2.2.1
    (by norm_num) (by norm_num)
  exact ⟨hw, h1, h2⟩

/-- Weight configuration isolating the latency criterion, used by the
latency-monotonicity counterexample. -/
def latencyOnlyWeights : Weights :=
  { status := false, currency := 0, capacity := 0, channels := 0
    latency := 1, mints := 0, melts := 0, errors := 0 }

/-- Counterexample to C4 as stated: over the full declared latency
domain the score is not non-increasing in latency.  A known latency of
2000 ms is penalized by 2000, while the larger sentinel latency 99999
is penalized by the fixed 1000 only, so the score strictly increases
when latency grows from 2000 to 99999. -/
theorem score_latency_not_monotone :
    (zeroRecord : EndpointRecord).latency = 0
    ∧ (2000 : ℕ) < 99999
    ∧ calculateScore latencyOnlyWeights { zeroRecord with latency := 2000 }
        < calculateScore latencyOnlyWeights { zeroRecord with latency := 99999 } := by
  refine ⟨rfl, by norm_num, ?_⟩
  unfold calculateScore statusTerm activityTerm activityScoreRaw capacityTerm channelsTerm
    latencyTerm currencyTerm
  norm_num [latencyOnlyWeights, zeroRecord]

/-- Numeric value of a list of decimal digit characters. -/
def digitsToNat (l : List Char) : ℕ :=
  l.foldl (fun acc c => acc * 10 + (c.toNat - 48)) 0

/-- JavaScript `parseInt(s, 10)`: skip leading whitespace, read an
optional sign and the longest decimal-digit run; `none` models `NaN`
(no digit found). -/
def jsParseInt (s : String) : Option ℤ :=
  let l := s.data.dropWhile Char.isWhitespace
  let signAndRest : ℤ × List Char :=
    match l with
    | '-' :: r => (-1, r)
    | '+' :: r => (1, r)
    | r => (1, r)
  let ds := signAndRest.2.takeWhile Char.isDigit
  if ds.isEmpty then none else some (signAndRest.1 * (digitsToNat ds : ℤ))

/-- Exponent part accepted by `parseFloat` after the mantissa: `e`/`E`,
an optional sign and digits; ignored (0) when no digit follows. -/
def jsFloatExp (r : List Char) : ℤ :=
  match r with
  | 'e' :: rest | 'E' :: rest =>
    match rest with
    | '-' :: ds =>
      let t := ds.takeWhile Char.isDigit
      if t.isEmpty then 0 else -(digitsToNat t : ℤ)
    | '+' :: ds =>
      let t := ds.takeWhile Char.isDigit
      if t.isEmpty then 0 else (digitsToNat t : ℤ)
    | ds =>
      let t := ds.takeWhile Char.isDigit
      if t.isEmpty then 0 else (digitsToNat t : ℤ)
  | _ => 0

/-- Mantissa-and-exponent part of `parseFloat` after the sign: integer
digits, an optional fraction, an optional exponent; `none` models `NaN`
(no digit in either position). -/
def jsParseFloatBody (sign : ℚ) (r : List Char) : Option ℚ :=
  let ip := r.takeWhile Char.isDigit
  let r2 := r.drop ip.length
  let fracAndRest : List Char × List Char :=
    match r2 with
    | '.' :: rest => (rest.takeWhile Char.isDigit, rest.drop ((rest.takeWhile Char.isDigit).length))
    | _ => ([], r2)
  if ip.isEmpty ∧ fracAndRest.1.isEmpty then none
  else
    let mant : ℚ := (digitsToNat ip : ℚ)
      + (digitsToNat fracAndRest.1 : ℚ) / (10 : ℚ) ^ fracAndRest.1.length
    some (sign * mant * (10 : ℚ) ^ jsFloatExp fracAndRest.2)

/-- JavaScript `parseFloat(s)`: skip leading whitespace, read an
optional sign, digits with optional fraction and exponent; `none`
models `NaN`. -/
def jsParseFloat (s : String) : Option ℚ :=
  match s.data.dropWhile Char.isWhitespace with
  | '-' :: r => jsParseFloatBody (-1) r
  | '+' :: r => jsParseFloatBody 1 r
  | r => jsParseFloatBody 1 r

/-- JavaScript `a || d` for an optional string `a`: the fallback `d` is
taken when `a` is `undefined` or the empty string (both falsy). -/
def jsOrS (v : Option String) (d : String) : String :=
  match v with
  | none => d
  | some s => if s = "" then d else s

/-- The `dataset` attributes a table row may carry (`none` = attribute
absent, i.e. `undefined` in the script). -/
structure RowDataset where
  url : Option String
  name : Option String
  up : Option String
  uptime : Option String
  capacity : Option String
  channels : Option String
  currencies : Option String
  latency : Option String
  mints : Option String
  melts : Option String
  errors : Option String
deriving DecidableEq

/-- Raw record produced by `getRowData` before any normalization
guarantee: every parsed field is an `Option` whose `none` models the
JavaScript `NaN` that `parseInt`/`parseFloat` return on an unparsable
string. -/
structure RawRecord where
  url : Option String
  ln_name : String
  sortName : String
  isUp : Option ℤ
  uptime : Option ℚ
  capacity : Option ℤ
  channels : Option ℤ
  currencies : Option ℤ
  latency : Option ℤ
  mints : Option ℤ
  melts : Option ℤ
  errors : Option ℤ
deriving DecidableEq

/-- Record construction (`getRowData`): each dataset attribute is
defaulted through `||` and fed to `parseInt` (radix 10) or
`parseFloat`; the two name fields are lowercased with their `||`
fallback chains. -/
def getRowData (row : RowDataset) : RawRecord :=
  { url := row.url
    ln_name := (jsOrS row.name "").toLower
    sortName := (jsOrS row.name (jsOrS row.url "")).toLower
    isUp := jsParseInt (jsOrS row.up "0")
    uptime := jsParseFloat (jsOrS row.uptime "0")
    capacity := jsParseInt (jsOrS row.capacity "0")
    channels := jsParseInt (jsOrS row.channels "0")
    currencies := jsParseInt (jsOrS row.currencies "0")
    latency := jsParseInt (jsOrS row.latency "99999")
    mints := jsParseInt (jsOrS row.mints "0")
    melts := jsParseInt (jsOrS row.melts "0")
    errors := jsParseInt (jsOrS row.errors "0") }

/-- Row whose every dataset attribute is absent. -/
def emptyRow : RowDataset :=
  { url := none, name := none, up := none, uptime := none, capacity := none
    channels := none, currencies := none, latency := none, mints := none
    melts := none, errors := none }

/-- Counterexample to C5 as stated: an unparsable (non-empty,
non-numeric) capacity attribute does not evaluate to 0 — `parseInt`
returns `NaN` (modelled as `none`), which flows into the record and
from there into scoring. -/
theorem getRowData_unparsable_not_zero :
    (getRowData { emptyRow with capacity := some "abc" }).capacity = none
    ∧ (getRowData { emptyRow with capacity := some "abc" }).capacity ≠ some 0 := by
  constructor
  · rfl
  · intro h
    simp at h
    cases h

/-- C5 (amended): `getRowData` establishes the defaults only for absent
or empty attributes — each counter evaluates to 0, latency to the
sentinel 99999 — and a record carrying the sentinel latency is scored
with the fixed `1000 * weights.latency` penalty (not the sentinel
scaled), which differs from `99999 * weights.latency` whenever the
latency weight is nonzero. -/
theorem getRowData_defaults (row : RowDataset) (w : Weights) (d : EndpointRecord)
    (hup : row.up = none ∨ row.up = some "")
    (hupt : row.uptime = none ∨ row.uptime = some "")
    (hcap : row.capacity = none ∨ row.capacity = some "")
    (hchan : row.channels = none ∨ row.channels = some "")
    (hcur : row.currencies = none ∨ row.currencies = some "")
    (hlat : row.latency = none ∨ row.latency = some "")
    (hmints : row.mints = none ∨ row.mints = some "")
    (hmelts : row.melts = none ∨ row.melts = some "")
    (herr : row.errors = none ∨ row.errors = some "")
    (hd : d.latency = 99999) :
    (getRowData row).isUp = some 0
    ∧ (getRowData row).uptime = some 0
    ∧ (getRowData row).capacity = some 0
    ∧ (getRowData row).channels = some 0
    ∧ (getRowData row).currencies = some 0
    ∧ (getRowData row).latency = some 99999
    ∧ (getRowData row).mints = some 0
    ∧ (getRowData row).melts = some 0
    ∧ (getRowData row).errors = some 0
    ∧ latencyTerm w d = 1000 * w.latency
    ∧ (w.latency ≠ 0 → latencyTerm w d ≠ 99999 * w.latency) := by
  have hz : jsParseInt "0" = some 0 := by decide
  have hs : jsParseInt "99999" = some 99999 := by decide
  have hf : jsParseFloat "0" = some 0 := by
    have h1 : List.takeWhile Char.isDigit ['0'] = ['0'] := by decide
    have h2 : digitsToNat ['0'] = 0 := by decide
    show jsParseFloatBody 1 ['0'] = some 0
    simp only [jsParseFloatBody, h1]
    norm_num [h2, jsFloatExp, digitsToNat]
    decide
  have hor : ∀ (v : Option String) (dflt : String),
      v = none ∨ v = some "" → jsOrS v dflt = dflt := by
    intro v dflt h
    rcases h with h | h <;> simp [jsOrS, h]
  refine ⟨?_, ?_, ?_, ?_, ?_, ?_, ?_, ?_, ?_, ?_, ?_⟩
  · show jsParseInt (jsOrS row.up "0") = some 0
    rw [hor _ _ hup]; exact hz
  · show jsParseFloat (jsOrS row.uptime "0") = some 0
    rw [hor _ _ hupt]; exact hf
  · show jsParseInt (jsOrS row.capacity "0") = some 0
    rw [hor _ _ hcap]; exact hz
  · show jsParseInt (jsOrS row.channels "0") = some 0
    rw [hor _ _ hchan]; exact hz
  · show jsParseInt (jsOrS row.currencies "0") = some 0
    rw [hor _ _ hcur]; exact hz
  · show jsParseInt (jsOrS row.latency "99999") = some 99999
    rw [hor _ _ hlat]; exact hs
  · show jsParseInt (jsOrS row.mints "0") = some 0
    rw [hor _ _ hmints]; exact hz
  · show jsParseInt (jsOrS row.melts "0") = some 0
    rw [hor _ _ hmelts]; exact hz
  · show jsParseInt (jsOrS row.errors "0") = some 0
    rw [hor _ _ herr]; exact hz
  · unfold latencyTerm
    rw [if_pos (by omega)]
  · intro hw
    unfold latencyTerm
    rw [if_pos (by omega)]
    intro hcontra
    have : (98999 : ℚ) * w.latency = 0 := by linarith
    rcases mul_eq_zero.mp this with h | h
    · norm_num at h
    · exact hw h

/-- Witness for C5: the all-absent row takes every default, and the
sentinel-latency record is penalized by the fixed constant. -/
theorem getRowData_defaults_witness :
    emptyRow.up = none
    ∧ (getRowData emptyRow).latency = some 99999
    ∧ latencyTerm DEFAULTS { zeroRecord with latency := 99999 } = 1000 * DEFAULTS.latency := by
  have h := getRowData_defaults emptyRow DEFAULTS { zeroRecord with latency := 99999 }
    (Or.inl rfl) (Or.inl rfl) (Or.inl rfl) (Or.inl rfl) (Or.inl rfl) (Or.inl rfl)
    (Or.inl rfl) (Or.inl rfl) (Or.inl rfl) rfl
  exact ⟨rfl, h.2.2.2.2.2.1, h.2.2.2.2.2.2.2.2.2.1⟩

/-- Sort mode (`state.mode`), weighted or column. -/
inductive SortMode
  | weighted
  | column
deriving DecidableEq

/-- Sort direction (`state.direction`). -/
inductive SortDirection
  | asc
  | desc
deriving DecidableEq

/-- The column keys a sortable header can carry (`th.dataset.key`),
one per `getRowData` field used by column sort. -/
inductive ColumnKey
  | url
  | ln_name
  | isUp
  | uptime
  | capacity
  | channels
  | currencies
  | latency
  | mints
  | melts
  | errors
deriving DecidableEq

/-- The sorter state (`state`): mode, active column, direction, weights. -/
structure SortState where
  mode : SortMode
  columnKey : Option ColumnKey
  direction : SortDirection
  weights : Weights
deriving DecidableEq

/-- The initial sorter state. -/
def initState : SortState :=
  { mode := .weighted, columnKey := none, direction := .desc, weights := DEFAULTS }

/-- Header-click transition (`handleHeaderClick`): clicking the active
column in column mode toggles the direction; otherwise column mode is
entered on the clicked key with direction `desc`, except the latency,
url and errors columns which default to `asc`. -/
def handleHeaderClick (s : SortState) (key : ColumnKey) : SortState :=
  if s.mode = .column ∧ s.columnKey = some key then
    { s with direction := if s.direction = .desc then .asc else .desc }
  else
    { s with mode := .column, columnKey := some key
             direction := if key = .latency ∨ key = .url ∨ key = .errors then .asc else .desc }

/-- Weight-edit transition (a numeric input event): stores the new
weight for the key and forces weighted mode. -/
def setNumericWeight (s : SortState) (key : ColumnKey) (v : ℚ) : SortState :=
  { s with mode := .weighted
           weights :=
             match key with
             | .currencies => { s.weights with currency := v }
             | .capacity => { s.weights with capacity := v }
             | .channels => { s.weights with channels := v }
             | .latency => { s.weights with latency := v }
             | .mints => { s.weights with mints := v }
             | .melts => { s.weights with melts := v }
             | .errors => { s.weights with errors := v }
             | _ => s.weights }

/-- Reset transition (the `reset-sort` click handler): restores
weighted mode and the default weights.  The source does not touch
`state.direction` or `state.columnKey`. -/
def resetState (s : SortState) : SortState :=
  { s with mode := .weighted, weights := DEFAULTS }

/-- C9 (amended): after the reset fires, the mode is weighted and the
weights are the defaults, for every prior state — but the direction
(and column key) keep their prior values rather than being restored to
`desc`. -/
theorem resetState_spec (s : SortState) :
    (resetState s).mode = .weighted
    ∧ (resetState s).weights = DEFAULTS
    ∧ (resetState s).direction = s.direction
    ∧ (resetState s).columnKey = s.columnKey :=
  ⟨rfl, rfl, rfl, rfl⟩

/-- Counterexample to C9 as stated: from the reachable column-mode
state produced by clicking the latency header (direction `asc`), the
reset leaves the direction at `asc`, not `desc`. -/
theorem resetState_direction_cex :
    (handleHeaderClick initState .latency).mode = .column
    ∧ (handleHeaderClick initState .latency).direction = .asc
    ∧ (resetState (handleHeaderClick initState .latency)).mode = .weighted
    ∧ (resetState (handleHeaderClick initState .latency)).weights = DEFAULTS
    ∧ (resetState (handleHeaderClick initState .latency)).direction ≠ .desc := by
  refine ⟨rfl, rfl, rfl, rfl, ?_⟩
  intro h
  simp [resetState, handleHeaderClick, initState] at h

/-- Three-way comparison on one column value (`valA < valB`,
`valA > valB`, else equal), with the sign flipped by the direction. -/
def cmpVal {α : Type} [LinearOrder α] (dir : SortDirection) (x y : α) : ℤ :=
  if x < y then (if dir = .asc then -1 else 1)
  else if y < x then (if dir = .asc then 1 else -1)
  else 0

/-- Column-mode primary comparison: reads the field named by
`state.columnKey` from both records and compares. -/
def columnValCompare (st : SortState) (a b : EndpointRecord) : ℤ :=
  match st.columnKey with
  | none => 0
  | some .url => cmpVal st.direction a.url b.url
  | some .ln_name => cmpVal st.direction a.ln_name b.ln_name
  | some .isUp => cmpVal st.direction a.isUp b.isUp
  | some .uptime => cmpVal st.direction a.uptime b.uptime
  | some .capacity => cmpVal st.direction a.capacity b.capacity
  | some .channels => cmpVal st.direction a.channels b.channels
  | some .currencies => cmpVal st.direction a.currencies b.currencies
  | some .latency => cmpVal st.direction a.latency b.latency
  | some .mints => cmpVal st.direction a.mints b.mints
  | some .melts => cmpVal st.direction a.melts b.melts
  | some .errors => cmpVal st.direction a.errors b.errors

/-- Primary comparison of the sort callback in `applySort`:
`scoreB - scoreA` in weighted mode, the directed column comparison in
column mode. -/
noncomputable def primaryRes (st : SortState) (a b : EndpointRecord) : ℝ :=
  if st.mode = .weighted then calculateScore st.weights b - calculateScore st.weights a
  else (columnValCompare st a b : ℝ)

/-- Full comparator of `applySort`: the primary comparison, and on a
tie the ascending lowercase name (`sortName`) tie-breaker. -/
noncomputable def sortCompare (st : SortState) (a b : EndpointRecord) : ℝ :=
  let res := primaryRes st a b
  if res = 0 then
    if a.sortName < b.sortName then -1
    else if b.sortName < a.sortName then 1
    else res
  else res

lemma cmpVal_eq_zero_iff {α : Type} [LinearOrder α] (dir : SortDirection) (x y : α) :
    cmpVal dir x y = 0 ↔ x = y := by
  unfold cmpVal
  rcases lt_trichotomy x y with h | h | h
  · rw [if_pos h]
    constructor
    · intro hc
      split at hc <;> norm_num at hc
    · intro hc
      exact absurd hc (ne_of_lt h)
  · rw [if_neg (by rw [h]; exact lt_irrefl y), if_neg (by rw [h]; exact lt_irrefl y)]
    simp [h]
  · rw [if_neg (not_lt_of_gt h), if_pos h]
    constructor
    · intro hc
      split at hc <;> norm_num at hc
    · intro hc
      exact absurd hc.symm (ne_of_lt h)

lemma cmpVal_neg_iff {α : Type} [LinearOrder α] (dir : SortDirection) (x y : α) :
    cmpVal dir x y < 0 ↔ (dir = .asc ∧ x < y) ∨ (dir = .desc ∧ y < x) := by
  unfold cmpVal
  cases dir <;>
    rcases lt_trichotomy x y with h | h | h <;>
    simp [h, not_lt_of_gt, lt_asymm, le_of_eq, lt_irrefl] <;>
    first
      | (constructor
         · intro hc
           norm_num at hc
         · intro hc
           exact absurd hc (by omega))
      | omega
      | exact not_lt_of_gt h
      | (rw [if_neg (not_lt_of_gt h)]; norm_num; exact h)

lemma cmpVal_trans_neg {α : Type} [LinearOrder α] (dir : SortDirection) (x y z : α)
    (h1 : cmpVal dir x y < 0) (h2 : cmpVal dir y z < 0) : cmpVal dir x z < 0 := by
  rw [cmpVal_neg_iff] at h1 h2 ⊢
  rcases h1 with ⟨hd, h1⟩ | ⟨hd, h1⟩ <;> rcases h2 with ⟨hd2, h2⟩ | ⟨hd2, h2⟩
  · exact Or.inl ⟨hd, lt_trans h1 h2⟩
  · rw [hd] at hd2; cases hd2
  · rw [hd] at hd2; cases hd2
  · exact Or.inr ⟨hd, lt_trans h2 h1⟩

lemma columnValCompare_zero_of_eq (st : SortState) (a b c : EndpointRecord)
    (h1 : columnValCompare st a b = 0) (h2 : columnValCompare st b c = 0) :
    columnValCompare st a c = 0 := by
  unfold columnValCompare at h1 h2 ⊢
  rcases hk : st.columnKey with _ | k
  · rfl
  · rw [hk] at h1 h2
    cases k <;>
      (rw [cmpVal_eq_zero_iff] at h1 h2 ⊢; exact h1.trans h2)

lemma columnValCompare_trans_neg (st : SortState) (a b c : EndpointRecord)
    (h1 : columnValCompare st a b < 0) (h2 : columnValCompare st b c < 0) :
    columnValCompare st a c < 0 := by
  unfold columnValCompare at h1 h2 ⊢
  rcases hk : st.columnKey with _ | k
  · rw [hk] at h1; norm_num at h1
  · rw [hk] at h1 h2
    cases k <;> exact cmpVal_trans_neg _ _ _ _ h1 h2

lemma columnValCompare_neg_zero (st : SortState) (a b c : EndpointRecord)
    (h1 : columnValCompare st a b < 0) (h2 : columnValCompare st b c = 0) :
    columnValCompare st a c < 0 := by
  unfold columnValCompare at h1 h2 ⊢
  rcases hk : st.columnKey with _ | k
  · rw [hk] at h1; norm_num at h1
  · rw [hk] at h1 h2
    cases k <;>
      (rw [cmpVal_eq_zero_iff] at h2; rw [← h2]; exact h1)

lemma columnValCompare_zero_neg (st : SortState) (a b c : EndpointRecord)
    (h1 : columnValCompare st a b = 0) (h2 : columnValCompare st b c < 0) :
    columnValCompare st a c < 0 := by
  unfold columnValCompare at h1 h2 ⊢
  rcases hk : st.columnKey with _ | k
  · rw [hk] at h2; norm_num at h2
  · rw [hk] at h1 h2
    cases k <;>
      (rw [cmpVal_eq_zero_iff] at h1; rw [h1]; exact h2)

lemma columnValCompare_antisymm (st : SortState) (a b : EndpointRecord) :
    columnValCompare st b a = -columnValCompare st a b := by
  have key : ∀ {α : Type} [LinearOrder α] (dir : SortDirection) (x y : α),
      cmpVal dir y x = -cmpVal dir x y := by
    intro α inst dir x y
    unfold cmpVal
    rcases lt_trichotomy x y with h | h | h
    · rw [if_pos h, if_neg (not_lt_of_gt h), if_pos h]
      cases dir <;> simp
    · rw [if_neg (by rw [h]; exact lt_irrefl y), if_neg (by rw [h]; exact lt_irrefl y),
        if_neg (by rw [h]; exact lt_irrefl y), if_neg (by rw [h]; exact lt_irrefl y)]
      norm_num
    · rw [if_pos h, if_neg (not_lt_of_gt h), if_pos h]
      cases dir <;> simp
  unfold columnValCompare
  rcases st.columnKey with _ | k
  · norm_num
  · cases k <;> exact key st.direction _ _

lemma primaryRes_antisymm (st : SortState) (a b : EndpointRecord) :
    primaryRes st b a = -primaryRes st a b := by
  unfold primaryRes
  split
  · ring
  · rw [columnValCompare_antisymm]
    push_cast
    ring

lemma primaryRes_trans_neg (st : SortState) (a b c : EndpointRecord)
    (h1 : primaryRes st a b < 0) (h2 : primaryRes st b c < 0) :
    primaryRes st a c < 0 := by
  unfold primaryRes at h1 h2 ⊢
  split at h1 <;> rename_i hm
  · rw [if_pos hm] at h2
    rw [if_pos hm]
    linarith
  · rw [if_neg hm] at h2
    rw [if_neg hm]
    have h1' : columnValCompare st a b < 0 := by exact_mod_cast h1
    have h2' : columnValCompare st b c < 0 := by exact_mod_cast h2
    exact_mod_cast columnValCompare_trans_neg st a b c h1' h2'

lemma primaryRes_neg_zero (st : SortState) (a b c : EndpointRecord)
    (h1 : primaryRes st a b < 0) (h2 : primaryRes st b c = 0) :
    primaryRes st a c < 0 := by
  unfold primaryRes at h1 h2 ⊢
  split at h1 <;> rename_i hm
  · rw [if_pos hm] at h2
    rw [if_pos hm]
    linarith
  · rw [if_neg hm] at h2
    rw [if_neg hm]
    have h1' : columnValCompare st a b < 0 := by exact_mod_cast h1
    have h2' : columnValCompare st b c = 0 := by exact_mod_cast h2
    exact_mod_cast columnValCompare_neg_zero st a b c h1' h2'

lemma primaryRes_zero_neg (st : SortState) (a b c : EndpointRecord)
    (h1 : primaryRes st a b = 0) (h2 : primaryRes st b c < 0) :
    primaryRes st a c < 0 := by
  unfold primaryRes at h1 h2 ⊢
  split at h1 <;> rename_i hm
  · rw [if_pos hm] at h2
    rw [if_pos hm]
    linarith
  · rw [if_neg hm] at h2
    rw [if_neg hm]
    have h1' : columnValCompare st a b = 0 := by exact_mod_cast h1
    have h2' : columnValCompare st b c < 0 := by exact_mod_cast h2
    exact_mod_cast columnValCompare_zero_neg st a b c h1' h2'

lemma primaryRes_zero_zero (st : SortState) (a b c : EndpointRecord)
    (h1 : primaryRes st a b = 0) (h2 : primaryRes st b c = 0) :
    primaryRes st a c = 0 := by
  unfold primaryRes at h1 h2 ⊢
  split at h1 <;> rename_i hm
  · rw [if_pos hm] at h2
    rw [if_pos hm]
    linarith
  · rw [if_neg hm] at h2
    rw [if_neg hm]
    have h1' : columnValCompare st a b = 0 := by exact_mod_cast h1
    have h2' : columnValCompare st b c = 0 := by exact_mod_cast h2
    exact_mod_cast columnValCompare_zero_of_eq st a b c h1' h2'

/-- Characterization of the comparator's non-positive outcomes: either
the primary comparison already puts `a` first, or it ties and the
names decide (equal names compare 0). -/
lemma sortCompare_le_zero_iff (st : SortState) (a b : EndpointRecord) :
    sortCompare st a b ≤ 0 ↔
      (primaryRes st a b < 0 ∨ (primaryRes st a b = 0 ∧ a.sortName ≤ b.sortName)) := by
  unfold sortCompare
  rcases eq_or_ne (primaryRes st a b) 0 with h0 | h0
  · rw [if_pos h0]
    rcases lt_trichotomy a.sortName b.sortName with hn | hn | hn
    · rw [if_pos hn]
      constructor
      · intro _
        exact Or.inr ⟨h0, le_of_lt hn⟩
      · intro _
        norm_num
    · rw [if_neg (by rw [hn]; exact lt_irrefl _), if_neg (by rw [hn]; exact lt_irrefl _), h0]
      constructor
      · intro _
        exact Or.inr ⟨rfl, le_of_eq hn⟩
      · intro _
        exact le_refl 0
    · rw [if_neg (not_lt_of_gt hn), if_pos hn]
      constructor
      · intro hc
        norm_num at hc
      · intro hc
        rcases hc with hc | ⟨_, hc⟩
        · exact absurd h0 (ne_of_lt hc)
        · exact absurd hn (not_lt_of_le hc)
  · rw [if_neg h0]
    constructor
    · intro h
      exact Or.inl (lt_of_le_of_ne h h0)
    · intro h
      rcases h with h | ⟨h, _⟩
      · exact le_of_lt h
      · exact absurd h h0

/-- C6: the `applySort` comparator is total and transitive in both
modes, ties of the primary comparison are resolved by the ascending
lowercase display name, mutual non-strict comparison forces both a
primary tie and equal names, and the tie-break outcome does not depend
on the direction setting. -/
theorem sortCompare_total_order (st : SortState) (a b c : EndpointRecord)
    (d₁ d₂ : SortDirection) :
    (sortCompare st a b ≤ 0 ∨ sortCompare st b a ≤ 0)
    ∧ (sortCompare st a b ≤ 0 → sortCompare st b c ≤ 0 → sortCompare st a c ≤ 0)
    ∧ (sortCompare st a b ≤ 0 → sortCompare st b a ≤ 0 →
        primaryRes st a b = 0 ∧ a.sortName = b.sortName)
    ∧ (primaryRes st a b = 0 →
        ((sortCompare st a b < 0 ↔ a.sortName < b.sortName)
         ∧ (sortCompare st a b = 0 ↔ a.sortName = b.sortName)
         ∧ sortCompare { st with direction := d₁ } a b
             = sortCompare { st with direction := d₂ } a b)) := by
  refine ⟨?_, ?_, ?_, ?_⟩
  · rw [sortCompare_le_zero_iff, sortCompare_le_zero_iff, primaryRes_antisymm st a b]
    rcases lt_trichotomy (primaryRes st a b) 0 with h | h | h
    · exact Or.inl (Or.inl h)
    · rcases le_total a.sortName b.sortName with hn | hn
      · exact Or.inl (Or.inr ⟨h, hn⟩)
      · exact Or.inr (Or.inr ⟨by rw [h]; ring, hn⟩)
    · exact Or.inr (Or.inl (by linarith))
  · rw [sortCompare_le_zero_iff, sortCompare_le_zero_iff, sortCompare_le_zero_iff]
    intro h1 h2
    rcases h1 with h1 | ⟨h1, hn1⟩ <;> rcases h2 with h2 | ⟨h2, hn2⟩
    · exact Or.inl (primaryRes_trans_neg st a b c h1 h2)
    · exact Or.inl (primaryRes_neg_zero st a b c h1 h2)
    · exact Or.inl (primaryRes_zero_neg st a b c h1 h2)
    · exact Or.inr ⟨primaryRes_zero_zero st a b c h1 h2, le_trans hn1 hn2⟩
  · rw [sortCompare_le_zero_iff, sortCompare_le_zero_iff, primaryRes_antisymm st a b]
    intro h1 h2
    rcases h1 with h1 | ⟨h1, hn1⟩
    · rcases h2 with h2 | ⟨h2, _⟩
      · exfalso
        linarith
      · exfalso
        linarith
    · refine ⟨h1, ?_⟩
      rcases h2 with h2 | ⟨_, hn2⟩
      · exfalso
        rw [h1] at h2
        norm_num at h2
      · exact le_antisymm hn1 hn2
  · intro h0
    have hd : ∀ d : SortDirection, primaryRes { st with direction := d } a b = 0 := by
      intro d
      unfold primaryRes at h0 ⊢
      split at h0 <;> rename_i hm
      · rw [if_pos hm]
        exact h0
      · rw [if_neg hm]
        have h0' : columnValCompare st a b = 0 := by exact_mod_cast h0
        have : columnValCompare { st with direction := d } a b = 0 := by
          unfold columnValCompare at h0' ⊢
          rcases hk : st.columnKey with _ | k
          · rfl
          · rw [hk] at h0'
            cases k <;>
              (rw [cmpVal_eq_zero_iff] at h0' ⊢; exact h0')
        exact_mod_cast this
    refine ⟨?_, ?_, ?_⟩
    · unfold sortCompare
      rw [if_pos h0]
      rcases lt_trichotomy a.sortName b.sortName with hn | hn | hn
      · rw [if_pos hn]
        simp [hn]
      · rw [if_neg (by rw [hn]; exact lt_irrefl _), if_neg (by rw [hn]; exact lt_irrefl _), h0]
        simp [hn]
      · rw [if_neg (not_lt_of_gt hn), if_pos hn]
        constructor
        · intro hc
          norm_num at hc
        · intro hc
          exact absurd hn (not_lt_of_gt hc)
    · unfold sortCompare
      rw [if_pos h0]
      rcases lt_trichotomy a.sortName b.sortName with hn | hn | hn
      · rw [if_pos hn]
        constructor
        · intro hc
          norm_num at hc
        · intro hc
          exact absurd hn (by rw [hc]; exact lt_irrefl _)
      · rw [if_neg (by rw [hn]; exact lt_irrefl _), if_neg (by rw [hn]; exact lt_irrefl _), h0]
        simp [hn]
      · rw [if_neg (not_lt_of_gt hn), if_pos hn]
        constructor
        · intro hc
          norm_num at hc
        · intro hc
          exact absurd hn (by rw [hc]; exact lt_irrefl _)
    · unfold sortCompare
      rw [if_pos (hd d₁), if_pos (hd d₂)]
      rcases lt_trichotomy a.sortName b.sortName with hn | hn | hn
      · rw [if_pos hn, if_pos hn]
      · rw [if_neg (by rw [hn]; exact lt_irrefl _), if_neg (by rw [hn]; exact lt_irrefl _),
          if_neg (by rw [hn]; exact lt_irrefl _), if_neg (by rw [hn]; exact lt_irrefl _),
          hd d₁, hd d₂]
      · rw [if_neg (not_lt_of_gt hn), if_pos hn, if_neg (not_lt_of_gt hn), if_pos hn]

/-- Column-mode state sorting on capacity, for the C6 witness. -/
def capacityColumnState : SortState :=
  { mode := .column, columnKey := some .capacity, direction := .desc, weights := DEFAULTS }

/-- Witness for C6: two records with equal capacity tie on the primary
comparison and are ordered by name ascending, in either direction. -/
theorem sortCompare_total_order_witness :
    primaryRes capacityColumnState { zeroRecord with sortName := "alpha" }
        { zeroRecord with sortName := "beta" } = 0
    ∧ sortCompare capacityColumnState { zeroRecord with sortName := "alpha" }
        { zeroRecord with sortName := "beta" } < 0
    ∧ sortCompare { capacityColumnState with direction := .asc }
          { zeroRecord with sortName := "alpha" } { zeroRecord with sortName := "beta" }
        = sortCompare { capacityColumnState with direction := .desc }
          { zeroRecord with sortName := "alpha" } { zeroRecord with sortName := "beta" } := by
  have h0 : primaryRes capacityColumnState { zeroRecord with sortName := "alpha" }
      { zeroRecord with sortName := "beta" } = 0 := by
    unfold primaryRes
    rw [if_neg (by simp [capacityColumnState])]
    have : columnValCompare capacityColumnState { zeroRecord with sortName := "alpha" }
        { zeroRecord with sortName := "beta" } = 0 := by
      show cmpVal SortDirection.desc (zeroRecord.capacity) (zeroRecord.capacity) = 0
      rw [cmpVal_eq_zero_iff]
    rw [this]
    norm_num
  have h := sortCompare_total_order capacityColumnState
    { zeroRecord with sortName := "alpha" } { zeroRecord with sortName := "beta" }
    { zeroRecord with sortName := "alpha" } SortDirection.asc SortDirection.desc
  have hname : ({ zeroRecord with sortName := "alpha" } : EndpointRecord).sortName
      < ({ zeroRecord with sortName := "beta" } : EndpointRecord).sortName := by
    show ("alpha" : String) < "beta"
    rw [String.lt_iff_toList_lt]
    decide
  refine ⟨h0, ((h.2.2.2 h0).1).mpr hname, ?_⟩
  have := (h.2.2.2 h0).2.2
  simpa [capacityColumnState] using this

/-- Cache TTL (`CACHE_DURATION_MS`). -/
def CACHE_DURATION_MS : ℕ := 10000

/-- Probe timeout (`REQUEST_TIMEOUT_MS`). -/
def REQUEST_TIMEOUT_MS : ℕ := 5000

/-- Periodic refresh interval (`REFRESH_INTERVAL_MS`). -/
def REFRESH_INTERVAL_MS : ℕ := 15000

/-- One cache entry (`{ latency, timestamp }` / `{ units, timestamp }`). -/
structure CacheEntry (α : Type) where
  value : α
  timestamp : ℕ

/-- State of one probe kind: the TTL cache and the in-flight registry
(`latencyCache`/`pendingRequests`, resp. `currencyCache`/
`pendingCurrencyRequests`), plus bookkeeping for the asynchronous
operations: which URL each operation probes, its outcome once settled,
and a fresh-id counter.  An operation with `started op = some u` and
`settled op = none` is an outstanding network call for `u`. -/
structure ProbeState (α : Type) where
  cache : String → Option (CacheEntry α)
  pending : String → Option ℕ
  started : ℕ → Option String
  settled : ℕ → Option (Option α)
  nextOp : ℕ

/-- Initial state: both maps empty, no operations. -/
def initProbeState (α : Type) : ProbeState α :=
  { cache := fun _ => none, pending := fun _ => none
    started := fun _ => none, settled := fun _ => none, nextOp := 0 }

/-- What a call of the probe function observes synchronously: a fresh
cached value, attachment to an in-flight operation's promise, or the
start of a new network call. -/
inductive InvokeResult (α : Type)
  | cached (v : α)
  | attached (op : ℕ)
  | started (op : ℕ)
deriving DecidableEq

/-- Freshness test of the cache path (`cached && Date.now() -
cached.timestamp < CACHE_DURATION_MS`). -/
def cacheFresh {α : Type} (s : ProbeState α) (u : String) (now : ℕ) : Bool :=
  match s.cache u with
  | some e => decide (now - e.timestamp < CACHE_DURATION_MS)
  | none => false

/-- State after a fresh operation for `u` is registered in the
in-flight registry and its network call issued. -/
def startState {α : Type} (s : ProbeState α) (u : String) : ProbeState α :=
  { cache := s.cache
    pending := fun u' => if u' = u then some s.nextOp else s.pending u'
    started := fun o => if o = s.nextOp then some u else s.started o
    settled := s.settled
    nextOp := s.nextOp + 1 }

/-- Cache-miss continuation of a probe call: attach to an in-flight
operation when the registry holds one, otherwise register a fresh
operation in the registry and issue the network call.  The registration
happens in the same synchronous block as the check — the async body
suspends only at its `await`, after `pendingRequests.set` ran. -/
def invokeMiss {α : Type} (s : ProbeState α) (u : String) : ProbeState α × InvokeResult α :=
  match s.pending u with
  | some op => (s, .attached op)
  | none => (startState s u, .started s.nextOp)

/-- A probe call (`measureLatency` / `fetchSupportedUnits` up to its
first suspension): return the cached value when fresh, else fall to the
miss path. -/
def invokeStep {α : Type} (s : ProbeState α) (u : String) (now : ℕ) :
    ProbeState α × InvokeResult α :=
  match s.cache u with
  | some e =>
    if now - e.timestamp < CACHE_DURATION_MS then (s, .cached e.value)
    else invokeMiss s u
  | none => invokeMiss s u

/-- Settlement of an outstanding operation: on a non-null outcome the
cache entry is written (the success branch of the `try`), the `finally`
removes the URL from the in-flight registry, and the outcome is
recorded so every attached caller observes it. -/
def settleStep {α : Type} (s : ProbeState α) (op : ℕ) (u : String)
    (outcome : Option α) (now : ℕ) : ProbeState α :=
  { cache :=
      match outcome with
      | some v => fun u' => if u' = u then some ⟨v, now⟩ else s.cache u'
      | none => s.cache
    pending := fun u' => if u' = u then none else s.pending u'
    started := s.started
    settled := fun o => if o = op then some outcome else s.settled o
    nextOp := s.nextOp }

/-- Periodic refresh tick: `latencyCache.clear()` / `currencyCache.clear()`. -/
def clearStep {α : Type} (s : ProbeState α) : ProbeState α :=
  { s with cache := fun _ => none }

/-- Events of one probe kind.  A settle event carries the raw response
`r`; the outcome delivered to the machine is `f r` for the probe's
outcome function. -/
inductive PEvent (R : Type)
  | invoke (u : String) (now : ℕ)
  | settle (op : ℕ) (u : String) (r : R) (now : ℕ)
  | clear

/-- Reachability of a probe-kind state under a trace of events, for the
outcome function `f` of the probe kind.  A settle is only enabled for
an operation that is outstanding on that URL. -/
inductive Reach {α R : Type} (f : R → Option α) :
    List (PEvent R) → ProbeState α → Prop
  | init : Reach f [] (initProbeState α)
  | invoke {tr s u now} : Reach f tr s →
      Reach f (PEvent.invoke u now :: tr) (invokeStep s u now).1
  | settle {tr s op u r now} : Reach f tr s →
      s.started op = some u → s.settled op = none →
      Reach f (PEvent.settle op u r now :: tr) (settleStep s op u (f r) now)
  | clear {tr s} : Reach f tr s → Reach f (PEvent.clear :: tr) (clearStep s)

/-- The dedup invariant: the in-flight registry lists exactly the
outstanding operations — every registered operation is outstanding on
its URL, every outstanding operation is registered under its URL, and
ids at or above the counter are untouched. -/
def ProbeInv {α : Type} (s : ProbeState α) : Prop :=
  (∀ u op, s.pending u = some op → s.started op = some u ∧ s.settled op = none)
  ∧ (∀ op u, s.started op = some u → s.settled op = none → s.pending u = some op)
  ∧ (∀ op, s.nextOp ≤ op → s.started op = none ∧ s.settled op = none)

lemma invokeMiss_eq_attached {α : Type} {s : ProbeState α} {u : String} {op : ℕ}
    (hp : s.pending u = some op) : invokeMiss s u = (s, .attached op) := by
  unfold invokeMiss
  rw [hp]

lemma invokeMiss_eq_start {α : Type} {s : ProbeState α} {u : String}
    (hp : s.pending u = none) : invokeMiss s u = (startState s u, .started s.nextOp) := by
  unfold invokeMiss
  rw [hp]

lemma invokeStep_eq_fresh {α : Type} {s : ProbeState α} {u : String} {now : ℕ}
    {e : CacheEntry α} (hc : s.cache u = some e)
    (ht : now - e.timestamp < CACHE_DURATION_MS) :
    invokeStep s u now = (s, .cached e.value) := by
  unfold invokeStep
  rw [hc]
  show (if now - e.timestamp < CACHE_DURATION_MS then (s, InvokeResult.cached e.value)
      else invokeMiss s u) = (s, InvokeResult.cached e.value)
  rw [if_pos ht]

lemma invokeStep_eq_miss {α : Type} {s : ProbeState α} {u : String} {now : ℕ}
    (h : cacheFresh s u now = false) : invokeStep s u now = invokeMiss s u := by
  unfold cacheFresh at h
  unfold invokeStep
  rcases hc : s.cache u with _ | e
  · rfl
  · rw [hc] at h
    have h' : decide (now - e.timestamp < CACHE_DURATION_MS) = false := h
    have ht : ¬ now - e.timestamp < CACHE_DURATION_MS := of_decide_eq_false h'
    show (if now - e.timestamp < CACHE_DURATION_MS then (s, InvokeResult.cached e.value)
        else invokeMiss s u) = invokeMiss s u
    rw [if_neg ht]

/-- Case analysis on the state component of a probe call: either the
state is unchanged (fresh hit or attach), or the call registered a
fresh operation from an empty pending slot. -/
lemma invokeStep_state_cases {α : Type} (s : ProbeState α) (u : String) (now : ℕ) :
    (invokeStep s u now).1 = s
    ∨ (s.pending u = none ∧ (invokeStep s u now).1 = startState s u) := by
  rcases hc : s.cache u with _ | e
  · have h : cacheFresh s u now = false := by
      unfold cacheFresh
      rw [hc]
    rw [invokeStep_eq_miss h]
    rcases hp : s.pending u with _ | op
    · rw [invokeMiss_eq_start hp]
      exact Or.inr ⟨rfl, rfl⟩
    · rw [invokeMiss_eq_attached hp]
      exact Or.inl rfl
  · by_cases ht : now - e.timestamp < CACHE_DURATION_MS
    · rw [invokeStep_eq_fresh hc ht]
      exact Or.inl rfl
    · have h : cacheFresh s u now = false := by
        unfold cacheFresh
        rw [hc]
        exact decide_eq_false ht
      rw [invokeStep_eq_miss h]
      rcases hp : s.pending u with _ | op
      · rw [invokeMiss_eq_start hp]
        exact Or.inr ⟨rfl, rfl⟩
      · rw [invokeMiss_eq_attached hp]
        exact Or.inl rfl

lemma probeInv_start {α : Type} (s : ProbeState α) (u : String)
    (hp : s.pending u = none) (h : ProbeInv s) : ProbeInv (startState s u) := by
  obtain ⟨h1, h2, h3⟩ := h
  refine ⟨?_, ?_, ?_⟩
  · intro u' op'
    simp only [startState]
    by_cases hu : u' = u
    · rw [if_pos hu]
      intro he
      have hop : op' = s.nextOp := by
        injection he with he'
        exact he'.symm
      rw [if_pos hop, hu, hop]
      exact ⟨rfl, (h3 s.nextOp (le_refl _)).2⟩
    · rw [if_neg hu]
      intro he
      have hne : op' ≠ s.nextOp := by
        intro hcon
        have := (h1 u' op' he).1
        rw [hcon, (h3 s.nextOp (le_refl _)).1] at this
        cases this
      rw [if_neg hne]
      exact h1 u' op' he
  · intro op' u'
    simp only [startState]
    by_cases ho : op' = s.nextOp
    · rw [if_pos ho]
      intro he _
      have hu : u' = u := by
        injection he with he'
        exact he'.symm
      rw [if_pos hu, ho]
    · rw [if_neg ho]
      intro he hs
      have := h2 op' u' he hs
      by_cases hu : u' = u
      · exfalso
        rw [hu, hp] at this
        cases this
      · rw [if_neg hu]
        exact this
  · intro op' hop
    simp only [startState] at hop ⊢
    rw [if_neg (by omega)]
    exact h3 op' (by omega)

lemma probeInv_invoke {α : Type} (s : ProbeState α) (u : String) (now : ℕ)
    (h : ProbeInv s) : ProbeInv (invokeStep s u now).1 := by
  rcases invokeStep_state_cases s u now with hs | ⟨hp, hs⟩
  · rw [hs]
    exact h
  · rw [hs]
    exact probeInv_start s u hp h

lemma probeInv_settle {α : Type} (s : ProbeState α) (op : ℕ) (u : String)
    (outcome : Option α) (now : ℕ)
    (hst : s.started op = some u) (hse : s.settled op = none)
    (h : ProbeInv s) : ProbeInv (settleStep s op u outcome now) := by
  obtain ⟨h1, h2, h3⟩ := h
  refine ⟨?_, ?_, ?_⟩
  · intro u' op'
    simp only [settleStep]
    by_cases hu : u' = u
    · rw [if_pos hu]
      intro he
      cases he
    · rw [if_neg hu]
      intro he
      obtain ⟨ha, hb⟩ := h1 u' op' he
      have hne : op' ≠ op := by
        intro hc
        subst hc
        rw [hst] at ha
        injection ha with ha'
        exact hu ha'.symm
      rw [if_neg hne]
      exact ⟨ha, hb⟩
  · intro op' u'
    simp only [settleStep]
    intro he
    by_cases ho : op' = op
    · rw [if_pos ho]
      intro hs
      cases hs
    · rw [if_neg ho]
      intro hs
      have := h2 op' u' he hs
      by_cases hu : u' = u
      · exfalso
        rw [hu] at this
        rw [h2 op u hst hse] at this
        injection this with h'
        exact ho h'.symm
      · rw [if_neg hu]
        exact this
  · intro op' hop
    simp only [settleStep]
    have hne : op' ≠ op := by
      intro hc
      subst hc
      rw [(h3 op' hop).1] at hst
      cases hst
    rw [if_neg hne]
    exact h3 op' hop

lemma probeInv_clear {α : Type} (s : ProbeState α) (h : ProbeInv s) :
    ProbeInv (clearStep s) := h

lemma reach_probeInv {α R : Type} {f : R → Option α} {tr : List (PEvent R)}
    {s : ProbeState α} (h : Reach f tr s) : ProbeInv s := by
  induction h with
  | init =>
    refine ⟨?_, ?_, ?_⟩
    · intro u op he
      cases he
    · intro op u he hs
      cases he
    · intro op hop
      exact ⟨rfl, rfl⟩
  | invoke hr ih => exact probeInv_invoke _ _ _ ih
  | settle hr hst hse ih => exact probeInv_settle _ _ _ _ _ hst hse ih
  | clear hr ih => exact probeInv_clear _ ih

/-- Trace-level bookkeeping: every settle event recorded in the trace
is reflected in the settled map, and every cache entry was written by a
settle event with that non-null value and timestamp. -/
def TraceInv {α R : Type} (f : R → Option α) (tr : List (PEvent R))
    (s : ProbeState α) : Prop :=
  (∀ op u r now, PEvent.settle op u r now ∈ tr → s.settled op = some (f r))
  ∧ (∀ u e, s.cache u = some e →
      ∃ op r, PEvent.settle op u r e.timestamp ∈ tr ∧ f r = some e.value)

lemma reach_traceInv {α R : Type} {f : R → Option α} {tr : List (PEvent R)}
    {s : ProbeState α} (h : Reach f tr s) : TraceInv f tr s := by
  induction h with
  | init =>
    refine ⟨?_, ?_⟩
    · intro op u r now he
      cases he
    · intro u e he
      cases he
  | @invoke tr s u now hr ih =>
    obtain ⟨i1, i2⟩ := ih
    have hcache : (invokeStep s u now).1.cache = s.cache := by
      rcases invokeStep_state_cases s u now with hs | ⟨_, hs⟩ <;> rw [hs] <;> rfl
    have hsettled : (invokeStep s u now).1.settled = s.settled := by
      rcases invokeStep_state_cases s u now with hs | ⟨_, hs⟩ <;> rw [hs] <;> rfl
    refine ⟨?_, ?_⟩
    · intro op' u' r' now' he
      rcases List.mem_cons.mp he with he | he
      · exact PEvent.noConfusion he
      · rw [hsettled]
        exact i1 op' u' r' now' he
    · intro u' e he
      rw [hcache] at he
      obtain ⟨op', r', hm, hf⟩ := i2 u' e he
      exact ⟨op', r', List.mem_cons_of_mem _ hm, hf⟩
  | @settle tr s op u r now hr hst hse ih =>
    obtain ⟨i1, i2⟩ := ih
    refine ⟨?_, ?_⟩
    · intro op' u' r' now' he
      show (if op' = op then some (f r) else s.settled op') = some (f r')
      rcases List.mem_cons.mp he with he | he
      · injection he with h1 h2 h3 h4
        rw [h1, if_pos rfl, h3]
      · by_cases ho : op' = op
        · exfalso
          have := i1 op' u' r' now' he
          rw [ho, hse] at this
          cases this
        · rw [if_neg ho]
          exact i1 op' u' r' now' he
    · intro u' e
      rcases hout : f r with _ | v
      · intro he
        obtain ⟨op', r', hm, hf⟩ := i2 u' e he
        exact ⟨op', r', List.mem_cons_of_mem _ hm, hf⟩
      · intro he
        have he' : (if u' = u then some (⟨v, now⟩ : CacheEntry α) else s.cache u')
            = some e := he
        by_cases hu : u' = u
        · rw [if_pos hu] at he'
          injection he' with he2
          subst hu
          rw [← he2]
          exact ⟨op, r, List.mem_cons_self _ _, hout⟩
        · rw [if_neg hu] at he'
          obtain ⟨op', r', hm, hf⟩ := i2 u' e he'
          exact ⟨op', r', List.mem_cons_of_mem _ hm, hf⟩
  | @clear tr s hr ih =>
    obtain ⟨i1, i2⟩ := ih
    refine ⟨?_, ?_⟩
    · intro op' u' r' now' he
      rcases List.mem_cons.mp he with he | he
      · exact PEvent.noConfusion he
      · exact i1 op' u' r' now' he
    · intro u' e he
      cases he

lemma invokeStep_result_cases {α : Type} (s : ProbeState α) (u : String) (now : ℕ) :
    (∃ e, s.cache u = some e ∧ invokeStep s u now = (s, .cached e.value))
    ∨ invokeStep s u now = invokeMiss s u := by
  rcases hc : s.cache u with _ | e
  · refine Or.inr (invokeStep_eq_miss ?_)
    unfold cacheFresh
    rw [hc]
  · by_cases ht : now - e.timestamp < CACHE_DURATION_MS
    · exact Or.inl ⟨e, rfl, invokeStep_eq_fresh hc ht⟩
    · refine Or.inr (invokeStep_eq_miss ?_)
      unfold cacheFresh
      rw [hc]
      exact decide_eq_false ht

/-- C2: while an operation for a URL is outstanding, a further probe
call for that URL changes nothing and issues no new network call; on a
cache miss it attaches to exactly that operation; the outstanding
operation for a URL is unique; and any two settle events recorded for
one operation carry the same outcome, so every attached caller observes
the outcome of the single network call.  Generic in the probe kind
(latency and capability probes share this machine). -/
theorem probe_dedup {α R : Type} (f : R → Option α) (tr : List (PEvent R))
    (s : ProbeState α) (u : String) (now op : ℕ)
    (hreach : Reach f tr s) (hst : s.started op = some u) (hse : s.settled op = none) :
    (invokeStep s u now).1 = s
    ∧ (∀ op', (invokeStep s u now).2 ≠ .started op')
    ∧ (cacheFresh s u now = false → (invokeStep s u now).2 = .attached op)
    ∧ (∀ op₂, s.started op₂ = some u → s.settled op₂ = none → op₂ = op)
    ∧ (∀ op'' u₁ r₁ n₁ u₂ r₂ n₂, PEvent.settle op'' u₁ r₁ n₁ ∈ tr →
        PEvent.settle op'' u₂ r₂ n₂ ∈ tr → f r₁ = f r₂) := by
  obtain ⟨i1, i2, i3⟩ := reach_probeInv hreach
  have hpend : s.pending u = some op := i2 op u hst hse
  refine ⟨?_, ?_, ?_, ?_, ?_⟩
  · rcases invokeStep_state_cases s u now with h | ⟨hp, _⟩
    · exact h
    · rw [hp] at hpend
      cases hpend
  · intro op'
    rcases invokeStep_result_cases s u now with ⟨e, _, h⟩ | h
    · rw [h]
      intro hcon
      cases hcon
    · rw [h, invokeMiss_eq_attached hpend]
      intro hcon
      cases hcon
  · intro hfresh
    rw [invokeStep_eq_miss hfresh, invokeMiss_eq_attached hpend]
  · intro op₂ hst₂ hse₂
    have := i2 op₂ u hst₂ hse₂
    rw [hpend] at this
    injection this with h
    exact h.symm
  · intro op'' u₁ r₁ n₁ u₂ r₂ n₂ hm₁ hm₂
    obtain ⟨t1, _⟩ := reach_traceInv hreach
    have e1 := t1 op'' u₁ r₁ n₁ hm₁
    have e2 := t1 op'' u₂ r₂ n₂ hm₂
    rw [e1] at e2
    exact Option.some.inj e2

/-- Latency-probe response: HTTP-success flag and the rounded elapsed
round-trip time the probe measured. -/
structure LatResponse where
  ok : Bool
  elapsed : ℕ

/-- Outcome of one latency probe run (`measureLatency` after the
fetch): the elapsed time on a successful response, `null` otherwise. -/
def latencyOutcome (r : LatResponse) : Option ℕ :=
  if r.ok then some r.elapsed else none

/-- The URL used by concrete witnesses of the probe machine. -/
def demoUrl : String := "https://mint.example"

/-- Machine state after one probe call for `demoUrl` on the empty
state: operation 0 is outstanding. -/
def demoState : ProbeState ℕ := (invokeStep (initProbeState ℕ) demoUrl 0).1

/-- Witness for C2: with operation 0 outstanding for the demo URL, a
second call attaches to operation 0 and leaves the state unchanged. -/
theorem probe_dedup_witness :
    demoState.started 0 = some demoUrl
    ∧ (invokeStep demoState demoUrl 5).1 = demoState
    ∧ (invokeStep demoState demoUrl 5).2 = InvokeResult.attached 0 := by
  have h := probe_dedup latencyOutcome [PEvent.invoke demoUrl 0] demoState demoUrl 5 0
    (Reach.invoke Reach.init) rfl rfl
  exact ⟨rfl, h.1, h.2.2.1 rfl⟩

/-- C7: a latency value is produced (and a cache entry written) only on
an HTTP-success response; a failing run yields `null`, leaves the cache
untouched, and — absent any other fresh entry — the immediately
following call for the same URL starts a new network probe instead of
reusing the failure. -/
theorem measureLatency_failure_semantics (s : ProbeState ℕ) (op : ℕ) (u : String)
    (r r' : LatResponse) (now now' : ℕ)
    (hfail : r.ok = false) (hfresh : cacheFresh s u now' = false) :
    latencyOutcome r = none
    ∧ (settleStep s op u (latencyOutcome r) now).cache = s.cache
    ∧ (r'.ok = true → latencyOutcome r' = some r'.elapsed
        ∧ (settleStep s op u (latencyOutcome r') now).cache u = some ⟨r'.elapsed, now⟩)
    ∧ (∀ v, latencyOutcome r' = some v → r'.ok = true)
    ∧ (invokeStep (settleStep s op u (latencyOutcome r) now) u now').2
        = InvokeResult.started s.nextOp := by
  have h0 : latencyOutcome r = none := by
    unfold latencyOutcome
    rw [hfail]
    rfl
  refine ⟨h0, ?_, ?_, ?_, ?_⟩
  · rw [h0]
    rfl
  · intro hok
    have h1 : latencyOutcome r' = some r'.elapsed := by
      unfold latencyOutcome
      rw [hok]
      rfl
    refine ⟨h1, ?_⟩
    rw [h1]
    show (if u = u then some (⟨r'.elapsed, now⟩ : CacheEntry ℕ) else s.cache u)
        = some ⟨r'.elapsed, now⟩
    rw [if_pos rfl]
  · intro v hv
    unfold latencyOutcome at hv
    by_cases hok : r'.ok = true
    · exact hok
    · rw [if_neg hok] at hv
      cases hv
  · rw [h0]
    have hfresh' : cacheFresh (settleStep s op u none now) u now' = false := by
      have heq : cacheFresh (settleStep s op u none now) u now' = cacheFresh s u now' := rfl
      rw [heq]
      exact hfresh
    rw [invokeStep_eq_miss hfresh']
    have hp : (settleStep s op u none now).pending u = none := by
      show (if u = u then none else s.pending u) = none
      rw [if_pos rfl]
    rw [invokeMiss_eq_start hp]
    rfl

/-- Witness for C7: a failed probe on the empty state yields `null`,
and the immediately following call starts a fresh operation. -/
theorem measureLatency_failure_witness :
    (LatResponse.mk false 123).ok = false
    ∧ latencyOutcome ⟨false, 123⟩ = none
    ∧ (invokeStep (settleStep (initProbeState ℕ) 0 demoUrl (latencyOutcome ⟨false, 123⟩) 0)
        demoUrl 1).2 = InvokeResult.started 0 := by
  have h := measureLatency_failure_semantics (initProbeState ℕ) 0 demoUrl
    ⟨false, 123⟩ ⟨true, 55⟩ 0 1 rfl rfl
  exact ⟨rfl, h.1, h.2.2.2.2⟩

/-- C10: every entry of the latency cache originates from a settle
event whose response was an HTTP success, holding its rounded elapsed
time (a non-null integer), and while the entry is younger than the TTL
a probe call returns exactly that integer with no state change (hence
no network call and no `null`). -/
theorem latencyCache_entries_from_success (tr : List (PEvent LatResponse))
    (s : ProbeState ℕ) (u : String) (e : CacheEntry ℕ) (now : ℕ)
    (hreach : Reach latencyOutcome tr s) (hcache : s.cache u = some e)
    (hfresh : now - e.timestamp < CACHE_DURATION_MS) :
    (∃ op r, PEvent.settle op u r e.timestamp ∈ tr ∧ r.ok = true ∧ r.elapsed = e.value)
    ∧ invokeStep s u now = (s, .cached e.value) := by
  obtain ⟨_, t2⟩ := reach_traceInv hreach
  obtain ⟨op, r, hm, hf⟩ := t2 u e hcache
  refine ⟨⟨op, r, hm, ?_, ?_⟩, invokeStep_eq_fresh hcache hfresh⟩
  · by_cases hok : r.ok = true
    · exact hok
    · exfalso
      unfold latencyOutcome at hf
      rw [if_neg hok] at hf
      cases hf
  · unfold latencyOutcome at hf
    by_cases hok : r.ok = true
    · rw [if_pos hok] at hf
      exact Option.some.inj hf
    · rw [if_neg hok] at hf
      cases hf

/-- Machine state after operation 0 for the demo URL settles
successfully with elapsed time 42 at time 3. -/
def demoState2 : ProbeState ℕ := settleStep demoState 0 demoUrl (latencyOutcome ⟨true, 42⟩) 3

/-- Witness for C10: after a successful settle at time 3, the cache
holds the measured 42 and a call at time 5 returns it from the cache. -/
theorem latencyCache_entries_witness :
    demoState2.cache demoUrl = some ⟨42, 3⟩
    ∧ invokeStep demoState2 demoUrl 5 = (demoState2, .cached 42) := by
  have hreach : Reach latencyOutcome
      [PEvent.settle 0 demoUrl ⟨true, 42⟩ 3, PEvent.invoke demoUrl 0] demoState2 :=
    Reach.settle (Reach.invoke Reach.init) rfl rfl
  have h := latencyCache_entries_from_success _ demoState2 demoUrl ⟨42, 3⟩ 5
    hreach rfl (by norm_num [CACHE_DURATION_MS])
  exact ⟨rfl, h.2⟩

/-- JSON values, the shape `response.json()` can deliver. -/
inductive Json
  | null
  | bool (b : Bool)
  | num (q : ℚ)
  | str (s : String)
  | arr (elems : List Json)
  | obj (fields : List (String × Json))

/-- Association-list lookup for object fields. -/
def jsLookup : List (String × Json) → String → Option Json
  | [], _ => none
  | (k, v) :: rest, key => if k = key then some v else jsLookup rest key

/-- JavaScript property access `x.k` (also `x?.k`): a field of an
object, `undefined` (`none`) on anything else. -/
def jsGet (j : Json) (k : String) : Option Json :=
  match j with
  | .obj fields => jsLookup fields k
  | _ => none

/-- JavaScript truthiness of a JSON value (`ks && ...`). -/
def jsTruthy : Json → Bool
  | .null => false
  | .bool b => b
  | .num q => decide (q ≠ 0)
  | .str s => decide (s ≠ "")
  | .arr _ => true
  | .obj _ => true

/-- The `ks.active === true` test. -/
def isActiveTrue (ks : Json) : Bool :=
  match jsGet ks "active" with
  | some (.bool true) => true
  | _ => false

/-- The `ks.unit` field when it is a string (`typeof ks.unit === 'string'`). -/
def unitOf (ks : Json) : Option String :=
  match jsGet ks "unit" with
  | some (.str s) => some s
  | _ => none

/-- The `keysets` list:
`Array.isArray(data?.keysets) ? data.keysets : []`. -/
def keysetsOf (data : Json) : List Json :=
  match jsGet data "keysets" with
  | some (.arr l) => l
  | _ => []

/-- `[...new Set(list)]`: deduplication keeping the first occurrence of
each element, in insertion order. -/
def jsSetDedup (l : List String) : List String :=
  l.foldl (fun acc x => if x ∈ acc then acc else acc ++ [x]) []

/-- The unit extraction of `fetchSupportedUnits`: filter the keysets to
the truthy entries with `active === true` and a string `unit`, map to
the unit, deduplicate. -/
def extractUnits (data : Json) : List String :=
  jsSetDedup (((keysetsOf data).filter
    (fun ks => jsTruthy ks && isActiveTrue ks && (unitOf ks).isSome)).filterMap unitOf)

/-- Stated from the spec's words only: "the unit set is the
deduplicated collection of `unit` values where `active == true`" —
each keyset entry whose `active` field equals `true` contributes its
string `unit` value. -/
def specSupportedUnits (data : Json) : List String :=
  jsSetDedup ((keysetsOf data).filterMap (fun ks => if isActiveTrue ks then unitOf ks else none))

/-- Capability-probe response: HTTP-success flag and the parsed JSON
body (`none` when `response.json()` throws on an unparsable body). -/
structure UnitsResponse where
  ok : Bool
  body : Option Json

/-- Outcome of one capability probe run (`fetchSupportedUnits` after
the fetch): `null` on a non-success status or an unparsable body, the
extracted unit list otherwise. -/
def unitsOutcome (r : UnitsResponse) : Option (List String) :=
  if r.ok = false then none
  else
    match r.body with
    | none => none
    | some j => some (extractUnits j)

lemma isActiveTrue_truthy (ks : Json) (h : isActiveTrue ks = true) :
    jsTruthy ks = true := by
  unfold isActiveTrue jsGet at h
  cases ks <;> first
    | cases h
    | rfl

lemma filter_units_eq (l : List Json) :
    (l.filter (fun ks => jsTruthy ks && isActiveTrue ks && (unitOf ks).isSome)).filterMap unitOf
    = l.filterMap (fun ks => if isActiveTrue ks then unitOf ks else none) := by
  induction l with
  | nil => rfl
  | cons ks rest ih =>
    rw [List.filter_cons, List.filterMap_cons]
    by_cases ha : isActiveTrue ks = true
    · have htr := isActiveTrue_truthy ks ha
      rcases hu : unitOf ks with _ | su
      · rw [if_neg (by rw [htr, ha]; simp), ih, ha]
        rfl
      · rw [if_pos (by rw [htr, ha]; rfl), List.filterMap_cons, ih, hu, ha]
        rfl
    · have ha' : isActiveTrue ks = false := by
        cases hx : isActiveTrue ks
        · rfl
        · exact absurd hx ha
      rw [if_neg (by rw [ha']; simp), ih, ha']
      rfl

/-- C8: the capability probe's successful value is exactly the
deduplicated collection of `unit` strings of the active keysets (the
code's filter agrees with the spec's description); a non-success status
or unparsable body yields `null`; and a successful outcome is cached so
that a call within the TTL returns it without a new network call. -/
theorem fetchSupportedUnits_spec (j : Json) (r : UnitsResponse)
    (s : ProbeState (List String)) (op : ℕ) (u : String) (now now' : ℕ)
    (hok : r.ok = true) (hbody : r.body = some j)
    (httl : now' - now < CACHE_DURATION_MS) :
    extractUnits j = specSupportedUnits j
    ∧ unitsOutcome r = some (extractUnits j)
    ∧ (∀ r₂ : UnitsResponse, r₂.ok = false → unitsOutcome r₂ = none)
    ∧ (∀ r₂ : UnitsResponse, r₂.body = none → unitsOutcome r₂ = none)
    ∧ invokeStep (settleStep s op u (unitsOutcome r) now) u now'
        = (settleStep s op u (unitsOutcome r) now, .cached (extractUnits j)) := by
  have hout : unitsOutcome r = some (extractUnits j) := by
    unfold unitsOutcome
    rw [hok, hbody]
    rfl
  refine ⟨?_, hout, ?_, ?_, ?_⟩
  · unfold extractUnits specSupportedUnits
    rw [filter_units_eq]
  · intro r₂ h₂
    unfold unitsOutcome
    rw [h₂]
    rfl
  · intro r₂ h₂
    unfold unitsOutcome
    rw [h₂]
    split
    · rfl
    · rfl
  · rw [hout]
    have hc : (settleStep s op u (some (extractUnits j)) now).cache u
        = some ⟨extractUnits j, now⟩ := by
      show (if u = u then some (⟨extractUnits j, now⟩ : CacheEntry (List String))
          else s.cache u) = some ⟨extractUnits j, now⟩
      rw [if_pos rfl]
    exact invokeStep_eq_fresh hc httl

/-- Concrete keysets body for the C8 witness: two active `sat` entries
(deduplicated) and one inactive `usd` entry. -/
def demoKeysets : Json :=
  Json.obj [("keysets", Json.arr
    [ Json.obj [("active", Json.bool true), ("unit", Json.str "sat")]
    , Json.obj [("active", Json.bool false), ("unit", Json.str "usd")]
    , Json.obj [("active", Json.bool true), ("unit", Json.str "sat")] ])]

/-- Witness for C8: the demo body extracts `["sat"]`, matching the
spec-side definition, and the cached value is served within the TTL. -/
theorem fetchSupportedUnits_witness :
    extractUnits demoKeysets = ["sat"]
    ∧ extractUnits demoKeysets = specSupportedUnits demoKeysets
    ∧ unitsOutcome ⟨true, some demoKeysets⟩ = some (extractUnits demoKeysets)
    ∧ (invokeStep (settleStep (initProbeState (List String)) 0 demoUrl
        (unitsOutcome ⟨true, some demoKeysets⟩) 2) demoUrl 3).2
        = InvokeResult.cached (extractUnits demoKeysets) := by
  have h := fetchSupportedUnits_spec demoKeysets ⟨true, some demoKeysets⟩
    (initProbeState (List String)) 0 demoUrl 2 3 rfl rfl (by norm_num [CACHE_DURATION_MS])
  refine ⟨rfl, h.1, h.2.1, ?_⟩
  rw [h.2.2.2.2]

end MintBoard
